import Mathlib

/-!
Verification of the `macrotk` meta-token parser.

This file gives a shallow embedding of the two iterations of the parser:

* stream mode (`macrotk/src/meta.rs`): `MetaStream.next_name`,
  `MetaStream.next_value`, the `Name` wrapper and the `FromMetaValue`
  conversions;
* tree mode (`macrotk-core/src/meta.rs`): the `MetaValue` node grammar,
  `MetaList.get`, `MetaValue.as_list` and the `FromMeta` conversions.

Tokens are modelled at the granularity the parser observes them: a path is a
single pre-lexed token (as the spec describes the Token Cursor), literals are
a tagged union of string, base-10 integer and boolean, and parenthesized and
braced groups carry their interior token list.  Every token carries a source
span, modelled as a natural number; `Span.callSite` models
`proc_macro2::Span::call_site()`.  Fallible parsing is state passing over
`List Tok` in the `Except Diag` monad, mirroring how `syn::parse::ParseStream`
either consumes tokens or returns a `syn::Error` carrying a span.
-/

namespace Macrotk

/-- A source span, as attached to each token by the host tokenizer. -/
abbrev Span := Nat

/-- Models `proc_macro2::Span::call_site()`, the generic fallback span. -/
def Span.callSite : Span := 0

/-- Models `syn::Error`: a message together with the span it points at. -/
structure Diag where
  span : Span
  msg : String
deriving DecidableEq, Repr

/-- The literal tagged union: string, base-10 integer digits, boolean. -/
inductive Lit where
  | str (s : String)
  | int (n : Nat)
  | bool (b : Bool)
deriving DecidableEq, Repr

/-- A literal token together with its span (models `syn::Lit`). -/
structure LitTok where
  lit : Lit
  span : Span
deriving DecidableEq, Repr

/-- A parsed path (models `syn::Path`): its segments and its joined span. -/
structure Path where
  segs : List String
  span : Span
deriving DecidableEq, Repr

/-- One pre-lexed token as the parser observes it: a path, a literal, the
punctuation `=` and `,`, or a delimited group carrying its interior. -/
inductive Tok where
  | path (p : Path)
  | lit (l : LitTok)
  | eq (sp : Span)
  | comma (sp : Span)
  | parenGroup (inner : List Tok) (sp : Span)
  | braceGroup (inner : List Tok) (sp : Span)
deriving Repr

/-- The span carried by a token. -/
def Tok.span : Tok → Span
  | .path p => p.span
  | .lit l => l.span
  | .eq sp => sp
  | .comma sp => sp
  | .parenGroup _ sp => sp
  | .braceGroup _ sp => sp

/-- True exactly on the `=` punctuation token. -/
def Tok.isEqTok : Tok → Bool
  | .eq _ => true
  | _ => false

/-- True exactly on the `,` punctuation token. -/
def Tok.isComma : Tok → Bool
  | .comma _ => true
  | _ => false

/-- True exactly on a path token. -/
def Tok.isPathTok : Tok → Bool
  | .path _ => true
  | _ => false

/-- True exactly on a literal token. -/
def Tok.isLitTok : Tok → Bool
  | .lit _ => true
  | _ => false

/-- True exactly on a parenthesized group token. -/
def Tok.isParen : Tok → Bool
  | .parenGroup _ _ => true
  | _ => false

/-- True exactly on a braced group token. -/
def Tok.isBrace : Tok → Bool
  | .braceGroup _ _ => true
  | _ => false

/-- Models `p.parse::<syn::Path>()`: succeeds exactly when the next token is a
path, otherwise errors at the offending token (at call site when exhausted). -/
def parsePath : List Tok → Except Diag (Path × List Tok)
  | .path p :: rest => .ok (p, rest)
  | t :: _ => .error ⟨t.span, "expected identifier"⟩
  | [] => .error ⟨Span.callSite, "expected identifier"⟩

/-- Models parsing the punctuation `=` (`p.parse::<Token![=]>()`): returns the
span of the consumed token, or errors at the offending token. -/
def parseEqTok : List Tok → Except Diag (Span × List Tok)
  | .eq sp :: rest => .ok (sp, rest)
  | t :: _ => .error ⟨t.span, "expected equals sign"⟩
  | [] => .error ⟨Span.callSite, "expected equals sign"⟩

/-- Models parsing the punctuation `,` (`p.parse::<Token![,]>()`). -/
def parseComma : List Tok → Except Diag (Span × List Tok)
  | .comma sp :: rest => .ok (sp, rest)
  | t :: _ => .error ⟨t.span, "expected comma"⟩
  | [] => .error ⟨Span.callSite, "expected comma"⟩

/-- Models `p.parse::<syn::Lit>()`: one literal token. -/
def parseLit : List Tok → Except Diag (LitTok × List Tok)
  | .lit l :: rest => .ok (l, rest)
  | t :: _ => .error ⟨t.span, "expected literal"⟩
  | [] => .error ⟨Span.callSite, "expected literal"⟩

/-! ## Stream mode: `macrotk/src/meta.rs` -/

/-- Models `path.into_token_stream().to_string()`.  A multi-segment path
renders as the identifiers joined by the path separator; the proc-macro2
fallback prints `a :: b` for the two-segment path `a::b` (the compiler
implementation prints `a::b`; either way the result is the text of the whole
path, not of one segment).  A single-segment path renders as its identifier. -/
def pathRender (segs : List String) : String :=
  String.intercalate " :: " segs

/-- Models `macrotk::meta::Name`: the comparable text and the retained span. -/
structure Name where
  name : String
  span : Span
deriving DecidableEq, Repr

/-- Models `Name::new(path)`: span is `path.span()`, text is
`path.into_token_stream().to_string()`. -/
def Name.new (p : Path) : Name :=
  ⟨pathRender p.segs, p.span⟩

/-- Models `Name::as_str` composed with the `Deref` impl: the stored text. -/
def Name.as_str (n : Name) : String := n.name

/-- Models `MetaStream::next_name`: `Ok(None)` on an exhausted cursor,
otherwise one path followed by a mandatory `=` (the `?` propagation of the
source is the explicit error match). -/
def next_name (toks : List Tok) : Except Diag (Option Name × List Tok) :=
  if toks.isEmpty then
    .ok (none, toks)
  else
    match parsePath toks with
    | .error e => .error e
    | .ok (p, rest) =>
      match parseEqTok rest with
      | .error e => .error e
      | .ok (_, rest2) => .ok (some (Name.new p), rest2)

/-- Models the trait `macrotk::meta::FromMetaValue`: a token-level conversion
producing the target type directly from the unconsumed tokens. -/
class FromMetaValue (α : Type) where
  from_meta_value : List Tok → Except Diag (α × List Tok)

/-- Models `MetaStream::next_value::<T>`: `Ok(None)` on an exhausted cursor,
otherwise the conversion runs on the remaining tokens and then, only when
tokens still remain, one `,` is consumed. -/
def next_value (α : Type) [FromMetaValue α] (toks : List Tok) :
    Except Diag (Option α × List Tok) :=
  if toks.isEmpty then
    .ok (none, toks)
  else
    match FromMetaValue.from_meta_value (α := α) toks with
    | .error e => .error e
    | .ok (v, rest) =>
      if rest.isEmpty then
        .ok (some v, rest)
      else
        match parseComma rest with
        | .error e => .error e
        | .ok (_, rest2) => .ok (some v, rest2)

/-- Models the trait `macrotk::meta::FromMeta` (stream mode): consumes a whole
meta stream to build the target type. -/
class FromMeta (α : Type) where
  from_meta : List Tok → Except Diag (α × List Tok)

/-- Models the blanket impl `impl<T: FromMeta> FromMetaValue for T`: require a
braced group at the cursor (`syn::braced!`), then run the stream reader on the
interior of the group. -/
def from_meta_value_of_from_meta (fm : List Tok → Except Diag (α × List Tok)) :
    List Tok → Except Diag (α × List Tok)
  | .braceGroup inner _ :: rest => (fm inner).map fun vr => (vr.1, rest)
  | t :: _ => .error ⟨t.span, "expected curly braces"⟩
  | [] => .error ⟨Span.callSite, "expected curly braces"⟩

/-- Models `impl FromMetaValue for String`: `p.parse::<LitStr>()` then
`.value()`. -/
def string_from_meta_value : List Tok → Except Diag (String × List Tok)
  | .lit ⟨.str s, _⟩ :: rest => .ok (s, rest)
  | t :: _ => .error ⟨t.span, "expected string literal"⟩
  | [] => .error ⟨Span.callSite, "expected string literal"⟩

instance : FromMetaValue String := ⟨string_from_meta_value⟩

/-- Models `impl FromMetaValue for bool`: `p.parse::<LitBool>()` then
`.value()`. -/
def bool_from_meta_value : List Tok → Except Diag (Bool × List Tok)
  | .lit ⟨.bool b, _⟩ :: rest => .ok (b, rest)
  | t :: _ => .error ⟨t.span, "expected boolean literal"⟩
  | [] => .error ⟨Span.callSite, "expected boolean literal"⟩

instance : FromMetaValue Bool := ⟨bool_from_meta_value⟩

/-- The largest value of the host 64-bit signed integer type. -/
def i64Max : Nat := 2 ^ 63 - 1

/-- Models `impl FromMetaValue for i64`: `p.parse::<LitInt>()` then
`base10_parse`, whose overflow check fails at the span of the literal.  The
host i64 is modelled as `Int` with the explicit bound `i64Max`; integer
literal tokens carry their non-negative base-10 digit value. -/
def i64_from_meta_value : List Tok → Except Diag (Int × List Tok)
  | .lit ⟨.int n, sp⟩ :: rest =>
    if n ≤ i64Max then .ok ((n : Int), rest)
    else .error ⟨sp, "number too large to fit in target type"⟩
  | t :: _ => .error ⟨t.span, "expected integer literal"⟩
  | [] => .error ⟨Span.callSite, "expected integer literal"⟩

instance : FromMetaValue Int := ⟨i64_from_meta_value⟩

/-- Models `impl FromMetaValue for Name`: parse a path, wrap it. -/
instance : FromMetaValue Name where
  from_meta_value toks := (parsePath toks).map fun pr => (Name.new pr.1, pr.2)

/-- A one-field record with a required string field `keyword`, the running
example of the spec; its stream reader below is written exactly the way the
derive macro generates it. -/
structure InnerRec where
  keyword : String
deriving DecidableEq, Repr

/-- The derive-generated reader loop for `InnerRec`: repeatedly take a name;
on `keyword` fill the slot from `next_value`, on any other name fail; at
exhaustion a still-empty required slot is an error at call site.  Fuel-indexed
because each iteration consumes tokens from the stream. -/
def innerLoop : Nat → Option String → List Tok → Except Diag (InnerRec × List Tok)
  | 0, _, _ => .error ⟨Span.callSite, "recursion limit"⟩
  | fuel + 1, acc, toks =>
    match next_name toks with
    | .error e => .error e
    | .ok (none, rest) =>
      match acc with
      | some s => .ok (⟨s⟩, rest)
      | none => .error ⟨Span.callSite, "missing value for keyword"⟩
    | .ok (some nm, rest) =>
      if nm.as_str = "keyword" then
        match next_value String rest with
        | .error e => .error e
        | .ok (none, _) => .error ⟨Span.callSite, "expected value for keyword"⟩
        | .ok (some s, rest2) => innerLoop fuel (some s) rest2
      else .error ⟨Span.callSite, "unexpected value"⟩

/-- The `FromMeta` impl the derive macro generates for `InnerRec`. -/
instance : FromMeta InnerRec where
  from_meta toks := innerLoop (toks.length + 1) none toks

/-- The blanket `FromMetaValue` impl at the type `InnerRec`. -/
instance : FromMetaValue InnerRec :=
  ⟨from_meta_value_of_from_meta (FromMeta.from_meta (α := InnerRec))⟩

/-! ## Tree mode: `macrotk-core/src/meta.rs` -/

namespace Core

/-- Models `macrotk_core::meta::MetaValue`, the node tree of the eager
parser: a bare path, a name-value pair (whose `eq` token span is retained for
diagnostics), a named parenthesized list, or a bare literal. -/
inductive MetaValue where
  | path (p : Path)
  | nameValue (name : Path) (eqSp : Span) (value : LitTok)
  | list (name : Path) (parenSp : Span) (children : List MetaValue)
  | lit (l : LitTok)
deriving Repr

/-- True exactly on the `List` variant (models
`matches!(self, MetaValue::List(_))`). -/
def MetaValue.isList : MetaValue → Bool
  | .list _ _ _ => true
  | _ => false

/-- Models `MetaValue::name`: the terminal identifier of the path of a path,
list or name-value item; `None` for a literal. -/
def MetaValue.name : MetaValue → Option String
  | .path p => p.segs.getLast?
  | .list n _ _ => n.segs.getLast?
  | .nameValue n _ _ => n.segs.getLast?
  | .lit _ => none

/-- Models `MetaValue::literal`: the literal inside a `Lit` item, or an error
whose span is the offending item (the path span, the list name span, or the
name-value name span, exactly as in the source). -/
def MetaValue.literal : MetaValue → Except Diag LitTok
  | .lit l => .ok l
  | .path p => .error ⟨p.span, "expected a literal"⟩
  | .list n _ _ => .error ⟨n.span, "expected a literal"⟩
  | .nameValue n _ _ => .error ⟨n.span, "expected a literal"⟩

/-- The path produced by `syn::parse_quote!(empty)`: the single identifier
`empty` carrying the call-site span. -/
def emptyPath : Path := ⟨["empty"], Span.callSite⟩

/-- Models `MetaValue::as_list`: a list is returned as its own clone, any
other item becomes a one-element list named `empty` with call-site paren
span. -/
def MetaValue.as_list (m : MetaValue) : MetaValue :=
  if m.isList then m
  else .list emptyPath Span.callSite [m]

/-- Models `MetaValue::empty`: the zero-element list named `empty`. -/
def MetaValue.empty : MetaValue :=
  .list emptyPath Span.callSite []

/-- Models the predicate of `MetaList::get`:
`meta.name().map(|n| n == name).unwrap_or(false)`. -/
def nameMatches (key : String) (m : MetaValue) : Bool :=
  ((m.name).map fun n => n == key).getD false

/-- Models `MetaValue::NameValue(nv) => MetaValue::Lit(nv.value.clone())`
inside `MetaList::get`: a matched name-value item is converted through its
value as a standalone literal item; every other item converts as itself. -/
def coerceForGet : MetaValue → MetaValue
  | .nameValue _ _ v => .lit v
  | m => m

/-- Models `MetaList::get::<T>(name)` on the children of a list: the first
item whose `name()` equals `name` is selected (`filter(..).next()`), `None`
when no item matches, and the selected item is converted after the name-value
coercion.  The conversion `T::from_meta` is passed explicitly. -/
def metaListGet (fm : MetaValue → Except Diag α) (children : List MetaValue)
    (key : String) : Option (Except Diag α) :=
  match children.find? (nameMatches key) with
  | none => none
  | some item => some (fm (coerceForGet item))

mutual

/-- Models `impl Parse for MetaValue` as a fuel-indexed recursive-descent
step.  Try a path; on success peek: a parenthesized group makes a named list
whose interior is parsed as a terminated sequence, `=` makes a name-value
pair whose value is exactly one literal, anything else leaves the bare path.
When no path parses, parse one bare literal.  Out of fuel is an error never
reached from the wrapper below. -/
def parseMetaValue : Nat → List Tok → Except Diag (MetaValue × List Tok)
  | 0, _ => .error ⟨Span.callSite, "recursion limit"⟩
  | fuel + 1, toks =>
    match parsePath toks with
    | .ok (name, rest) =>
      match rest with
      | .parenGroup inner psp :: rest2 =>
        (parseTerminated fuel inner).map fun ch => (.list name psp ch, rest2)
      | .eq esp :: rest2 =>
        (parseLit rest2).map fun lr => (.nameValue name esp lr.1, lr.2)
      | _ => .ok (.path name, rest)
    | .error _ => (parseLit toks).map fun lr => (.lit lr.1, lr.2)

/-- Models `list.parse_terminated(MetaValue::parse)`: items separated by `,`,
empty interior legal, trailing `,` legal. -/
def parseTerminated : Nat → List Tok → Except Diag (List MetaValue)
  | _, [] => .ok []
  | 0, _ => .error ⟨Span.callSite, "recursion limit"⟩
  | fuel + 1, toks =>
    match parseMetaValue fuel toks with
    | .error e => .error e
    | .ok (v, rest) =>
      match rest with
      | [] => .ok [v]
      | _ =>
        match parseComma rest with
        | .error e => .error e
        | .ok (_, rest2) =>
          match parseTerminated fuel rest2 with
          | .error e => .error e
          | .ok vs => .ok (v :: vs)

end

/-- Models the trait `macrotk_core::meta::FromMeta` (tree mode): conversion
from one node of the tree. -/
class FromMeta (α : Type) where
  from_meta : MetaValue → Except Diag α

/-- Models `syn::LitStr`: the string value and its span. -/
structure LitStrT where
  value : String
  span : Span
deriving DecidableEq, Repr

/-- Models `impl FromMeta for LitStr`: take the item as a literal
(offending-token span on shape mismatch), then require the string kind — a
literal of any other kind errors at `Span::call_site()`. -/
def litStr_from_meta (m : MetaValue) : Except Diag LitStrT :=
  match m.literal with
  | .error e => .error e
  | .ok l =>
    match l.lit with
    | .str s => .ok ⟨s, l.span⟩
    | _ => .error ⟨Span.callSite, "expected str literal"⟩

instance : FromMeta LitStrT := ⟨litStr_from_meta⟩

/-- Models `impl<T: FromMeta> FromMeta for Option<T>`:
`Ok(Some(T::from_meta(p)?))`. -/
instance optionFromMeta [FromMeta α] : FromMeta (Option α) where
  from_meta m := (FromMeta.from_meta (α := α) m).map some

end Core

/-! ## Theorems -/

/-- A non-comma token at the cursor makes comma consumption fail at the span
of that token. -/
theorem parseComma_not_comma (t : Tok) (rest : List Tok) (h : t.isComma = false) :
    parseComma (t :: rest) = .error ⟨t.span, "expected comma"⟩ := by
  cases t <;> first | rfl | simp [Tok.isComma] at h

/-- A non-eq token at the cursor makes equals consumption fail at the span of
that token. -/
theorem parseEqTok_not_eq (t : Tok) (rest : List Tok) (h : t.isEqTok = false) :
    parseEqTok (t :: rest) = .error ⟨t.span, "expected equals sign"⟩ := by
  cases t <;> first | rfl | simp [Tok.isEqTok] at h

/-- C1: `MetaStream::next_name` returns `Ok(None)` (not an error) on an
exhausted cursor; otherwise it parses exactly one path and then mandatorily
consumes a following `=`, returning the parsed `Name`; the absence of `=`
after the path — whether another token or the end of the stream follows — is
a hard parse error. -/
theorem next_name_spec :
    (next_name [] = .ok (none, [])) ∧
    (∀ (p : Path) (esp : Span) (rest : List Tok),
      next_name (.path p :: .eq esp :: rest) = .ok (some (Name.new p), rest)) ∧
    (∀ (p : Path) (t : Tok) (rest : List Tok), t.isEqTok = false →
      next_name (.path p :: t :: rest) = .error ⟨t.span, "expected equals sign"⟩) ∧
    (∀ p : Path,
      next_name [.path p] = .error ⟨Span.callSite, "expected equals sign"⟩) := by
  refine ⟨rfl, fun p esp rest => rfl, fun p t rest h => ?_, fun p => rfl⟩
  show (match parseEqTok (t :: rest) with
        | .error e => Except.error e
        | .ok (_, rest2) => Except.ok (some (Name.new p), rest2)) =
      Except.error ⟨t.span, "expected equals sign"⟩
  rw [parseEqTok_not_eq t rest h]

/-- C1 witness: a concrete `name =` pair succeeds and a concrete pair whose
`=` is missing fails at the span of the found token. -/
theorem next_name_spec_witness :
    next_name [Tok.path ⟨["keyword"], 1⟩, Tok.eq 2] =
      .ok (some (Name.new ⟨["keyword"], 1⟩), []) ∧
    next_name [Tok.path ⟨["keyword"], 1⟩, Tok.lit ⟨.str "hi", 3⟩] =
      .error ⟨3, "expected equals sign"⟩ :=
  ⟨next_name_spec.2.1 ⟨["keyword"], 1⟩ 2 [],
   next_name_spec.2.2.1 ⟨["keyword"], 1⟩ (Tok.lit ⟨.str "hi", 3⟩) [] rfl⟩

/-- C2: `MetaStream::next_value::<T>` returns `Ok(None)` on an exhausted
cursor; otherwise it invokes the token-level conversion of `T` directly on
the remaining unconsumed tokens (errors propagating), and afterwards consumes
one trailing comma only when tokens remain — so a trailing comma after the
final pair is optional and a missing comma is a parse error at the span of
the unexpected next token. -/
theorem next_value_spec (α : Type) [FromMetaValue α] :
    (next_value α [] = .ok (none, [])) ∧
    (∀ (toks rest : List Tok) (v : α),
      toks.isEmpty = false →
      FromMetaValue.from_meta_value (α := α) toks = .ok (v, rest) →
      (rest = [] → next_value α toks = .ok (some v, [])) ∧
      (∀ (csp : Span) (rest2 : List Tok), rest = .comma csp :: rest2 →
        next_value α toks = .ok (some v, rest2)) ∧
      (∀ (t : Tok) (rest2 : List Tok), rest = t :: rest2 → t.isComma = false →
        next_value α toks = .error ⟨t.span, "expected comma"⟩)) ∧
    (∀ (toks : List Tok) (e : Diag),
      toks.isEmpty = false →
      FromMetaValue.from_meta_value (α := α) toks = .error e →
      next_value α toks = .error e) := by
  refine ⟨rfl, ?_, ?_⟩
  · intro toks rest v hne hconv
    refine ⟨?_, ?_, ?_⟩
    · rintro rfl
      simp [next_value, hne, hconv]
    · rintro csp rest2 rfl
      simp [next_value, hne, hconv, parseComma]
    · rintro t rest2 rfl ht
      simp [next_value, hne, hconv, parseComma_not_comma t rest2 ht,
        List.isEmpty_cons]
  · intro toks e hne hconv
    simp [next_value, hne, hconv]

/-- C2 witness: a concrete lone value without trailing comma succeeds, a
value followed by a comma and a further pair succeeds consuming the comma,
and a missing comma between two pairs fails at the span of the next token. -/
theorem next_value_spec_witness :
    next_value String [Tok.lit ⟨.str "hi", 3⟩] = .ok (some "hi", []) ∧
    next_value String [Tok.lit ⟨.str "hi", 3⟩, Tok.comma 4, Tok.path ⟨["x"], 5⟩] =
      .ok (some "hi", [Tok.path ⟨["x"], 5⟩]) ∧
    next_value String [Tok.lit ⟨.str "hi", 3⟩, Tok.path ⟨["x"], 5⟩] =
      .error ⟨5, "expected comma"⟩ :=
  ⟨((next_value_spec String).2.1 [Tok.lit ⟨.str "hi", 3⟩] [] "hi" rfl rfl).1 rfl,
   ((next_value_spec String).2.1
      [Tok.lit ⟨.str "hi", 3⟩, Tok.comma 4, Tok.path ⟨["x"], 5⟩]
      [Tok.comma 4, Tok.path ⟨["x"], 5⟩] "hi" rfl rfl).2.1 4
      [Tok.path ⟨["x"], 5⟩] rfl,
   ((next_value_spec String).2.1 [Tok.lit ⟨.str "hi", 3⟩, Tok.path ⟨["x"], 5⟩]
      [Tok.path ⟨["x"], 5⟩] "hi" rfl rfl).2.2 (Tok.path ⟨["x"], 5⟩) [] rfl rfl⟩

/-- C5 counterexample: `Name::new` on the two-segment path `foo::bar` stores
the token text of the whole path, which differs from the terminal identifier
`bar` of that path. -/
theorem name_new_multiseg_counterexample :
    (Name.new ⟨["foo", "bar"], 3⟩).name = "foo :: bar" ∧
    ["foo", "bar"].getLast? = some "bar" ∧
    "foo :: bar" ≠ "bar" :=
  ⟨rfl, rfl, by decide⟩

/-- C5 amended: the streaming-mode `Name` built from a parsed path stores the
token-stream rendering of the whole path as its comparable text — equal to
the terminal identifier exactly in the single-segment case, so equality
against literal keys such as `keyword` works for plain identifiers — while
retaining the span of the path for error reporting. -/
theorem name_new_spec :
    (∀ p : Path, Name.new p = ⟨pathRender p.segs, p.span⟩) ∧
    (∀ (s : String) (sp : Span), Name.new ⟨[s], sp⟩ = ⟨s, sp⟩) :=
  ⟨fun _ => rfl, fun _ _ => rfl⟩

/-- C8: the built-in i64 conversion parses an integer literal in base 10,
reports overflow past the largest 64-bit signed integer as a diagnostic at
the span of the literal, and reports a wrong literal kind (a string literal
against an i64 field) as a diagnostic at the span of that literal — always an
error value, never a panic. -/
theorem i64_from_meta_value_spec :
    (∀ (n : Nat) (sp : Span) (rest : List Tok), n ≤ i64Max →
      FromMetaValue.from_meta_value (α := Int) (Tok.lit ⟨.int n, sp⟩ :: rest) =
        .ok ((n : Int), rest)) ∧
    (∀ (n : Nat) (sp : Span) (rest : List Tok), i64Max < n →
      FromMetaValue.from_meta_value (α := Int) (Tok.lit ⟨.int n, sp⟩ :: rest) =
        .error ⟨sp, "number too large to fit in target type"⟩) ∧
    (∀ (s : String) (sp : Span) (rest : List Tok),
      FromMetaValue.from_meta_value (α := Int) (Tok.lit ⟨.str s, sp⟩ :: rest) =
        .error ⟨sp, "expected integer literal"⟩) := by
  refine ⟨fun n sp rest h => ?_, fun n sp rest h => ?_, fun s sp rest => rfl⟩
  · show (if n ≤ i64Max then Except.ok ((n : Int), rest)
        else Except.error (Diag.mk sp "number too large to fit in target type")) =
      Except.ok ((n : Int), rest)
    rw [if_pos h]
  · show (if n ≤ i64Max then Except.ok ((n : Int), rest)
        else Except.error (Diag.mk sp "number too large to fit in target type")) =
      Except.error (Diag.mk sp "number too large to fit in target type")
    rw [if_neg (not_le.mpr h)]

/-- C8 witness: the largest i64 parses, its successor overflows with a
diagnostic at the span of the literal, and a string literal against i64
fails with a diagnostic at the span of the literal. -/
theorem i64_from_meta_value_witness :
    FromMetaValue.from_meta_value (α := Int)
        [Tok.lit ⟨.int 9223372036854775807, 3⟩] =
      .ok ((9223372036854775807 : Int), []) ∧
    FromMetaValue.from_meta_value (α := Int)
        [Tok.lit ⟨.int 9223372036854775808, 3⟩] =
      .error ⟨3, "number too large to fit in target type"⟩ ∧
    FromMetaValue.from_meta_value (α := Int) [Tok.lit ⟨.str "notanumber", 3⟩] =
      .error ⟨3, "expected integer literal"⟩ :=
  ⟨i64_from_meta_value_spec.1 9223372036854775807 3 [] (by decide),
   i64_from_meta_value_spec.2.1 9223372036854775808 3 [] (by decide),
   i64_from_meta_value_spec.2.2 "notanumber" 3 []⟩

/-- C10: `MetaValue::as_list` always yields the `List` variant — a list is
returned unchanged, any other value becomes a single-element list whose sole
child is that value — and consequently `as_list` is idempotent. -/
theorem as_list_spec :
    (∀ m : Core.MetaValue, (m.as_list).isList = true) ∧
    (∀ m : Core.MetaValue, m.isList = true → m.as_list = m) ∧
    (∀ m : Core.MetaValue, m.isList = false →
      m.as_list = .list Core.emptyPath Span.callSite [m]) ∧
    (∀ m : Core.MetaValue, m.as_list.as_list = m.as_list) := by
  have h2 : ∀ m : Core.MetaValue, m.isList = true → m.as_list = m := by
    intro m hm
    simp [Core.MetaValue.as_list, hm]
  have h3 : ∀ m : Core.MetaValue, m.isList = false →
      m.as_list = .list Core.emptyPath Span.callSite [m] := by
    intro m hm
    simp [Core.MetaValue.as_list, hm]
  have h1 : ∀ m : Core.MetaValue, (m.as_list).isList = true := by
    intro m
    cases hm : m.isList
    · rw [h3 m hm]
      rfl
    · rw [h2 m hm]
      exact hm
  exact ⟨h1, h2, h3, fun m => h2 _ (h1 m)⟩

/-- C10 witness: a concrete literal item becomes a one-element list with the
literal as sole child, and a concrete list stays unchanged. -/
theorem as_list_spec_witness :
    (Core.MetaValue.lit ⟨.int 3, 7⟩).as_list =
      .list Core.emptyPath Span.callSite [.lit ⟨.int 3, 7⟩] ∧
    (Core.MetaValue.list ⟨["a"], 1⟩ 2 []).as_list =
      .list ⟨["a"], 1⟩ 2 [] :=
  ⟨as_list_spec.2.2.1 _ rfl, as_list_spec.2.1 _ rfl⟩

/-- C3: the Value Grammar first attempts a path; on success it peeks one
token: a parenthesized group makes a named nested list whose interior is the
comma-separated item sequence (empty interior giving zero children), `=`
makes a name-value pair whose value is exactly one literal token (a
non-literal after `=` is an error), and anything else leaves the bare path as
the item; when no path is present a bare literal is the item, and when
neither parses the result is an error. -/
theorem metaValue_parse_spec (fuel : Nat) :
    (∀ (p : Path) (inner : List Tok) (psp : Span) (rest : List Tok),
      Core.parseMetaValue (fuel + 1) (.path p :: .parenGroup inner psp :: rest) =
        (Core.parseTerminated fuel inner).map fun ch =>
          (.list p psp ch, rest)) ∧
    (∀ (p : Path) (psp : Span) (rest : List Tok),
      Core.parseMetaValue (fuel + 1) (.path p :: .parenGroup [] psp :: rest) =
        .ok (.list p psp [], rest)) ∧
    (∀ (p : Path) (esp : Span) (l : LitTok) (rest : List Tok),
      Core.parseMetaValue (fuel + 1) (.path p :: .eq esp :: .lit l :: rest) =
        .ok (.nameValue p esp l, rest)) ∧
    (∀ (p : Path) (esp : Span) (t : Tok) (rest : List Tok), t.isLitTok = false →
      Core.parseMetaValue (fuel + 1) (.path p :: .eq esp :: t :: rest) =
        .error ⟨t.span, "expected literal"⟩) ∧
    (∀ (p : Path) (t : Tok) (rest : List Tok),
      t.isParen = false → t.isEqTok = false →
      Core.parseMetaValue (fuel + 1) (.path p :: t :: rest) =
        .ok (.path p, t :: rest)) ∧
    (∀ p : Path, Core.parseMetaValue (fuel + 1) [.path p] = .ok (.path p, [])) ∧
    (∀ (l : LitTok) (rest : List Tok),
      Core.parseMetaValue (fuel + 1) (.lit l :: rest) = .ok (.lit l, rest)) ∧
    (∀ (t : Tok) (rest : List Tok), t.isPathTok = false → t.isLitTok = false →
      Core.parseMetaValue (fuel + 1) (t :: rest) =
        .error ⟨t.span, "expected literal"⟩) ∧
    (Core.parseMetaValue (fuel + 1) [] =
      .error ⟨Span.callSite, "expected literal"⟩) := by
  have hnil : ∀ f : Nat, Core.parseTerminated f [] = .ok [] := by
    intro f
    cases f <;> rfl
  refine ⟨fun p inner psp rest => rfl, fun p psp rest => ?_,
    fun p esp l rest => rfl, fun p esp t rest ht => ?_,
    fun p t rest hpar heq => ?_, fun p => rfl, fun l rest => rfl,
    fun t rest hp hl => ?_, rfl⟩
  · show (Core.parseTerminated fuel []).map
        (fun ch => (Core.MetaValue.list p psp ch, rest)) =
      Except.ok (Core.MetaValue.list p psp [], rest)
    rw [hnil fuel]
    rfl
  · cases t <;> first | rfl | simp [Tok.isLitTok] at ht
  · cases t
    case parenGroup => simp [Tok.isParen] at hpar
    case eq => simp [Tok.isEqTok] at heq
    all_goals rfl
  · cases t
    case path => simp [Tok.isPathTok] at hp
    case lit => simp [Tok.isLitTok] at hl
    all_goals rfl

/-- C3 witness: concrete instances — an empty nested list, a name-value
pair, a non-literal after `=` failing at its own span, and an item that is
neither path nor literal failing at its own span. -/
theorem metaValue_parse_spec_witness :
    Core.parseMetaValue 1 [Tok.path ⟨["a"], 1⟩, Tok.parenGroup [] 2] =
      .ok (.list ⟨["a"], 1⟩ 2 [], []) ∧
    Core.parseMetaValue 1 [Tok.path ⟨["a"], 1⟩, Tok.eq 2, Tok.lit ⟨.int 7, 3⟩] =
      .ok (.nameValue ⟨["a"], 1⟩ 2 ⟨.int 7, 3⟩, []) ∧
    Core.parseMetaValue 1 [Tok.path ⟨["a"], 1⟩, Tok.eq 2, Tok.path ⟨["b"], 3⟩] =
      .error ⟨3, "expected literal"⟩ ∧
    Core.parseMetaValue 1 [Tok.comma 9] = .error ⟨9, "expected literal"⟩ :=
  ⟨(metaValue_parse_spec 0).2.1 ⟨["a"], 1⟩ 2 [],
   (metaValue_parse_spec 0).2.2.1 ⟨["a"], 1⟩ 2 ⟨.int 7, 3⟩ [],
   (metaValue_parse_spec 0).2.2.2.1 ⟨["a"], 1⟩ 2 (Tok.path ⟨["b"], 3⟩) [] rfl,
   (metaValue_parse_spec 0).2.2.2.2.2.2.2.1 (Tok.comma 9) [] rfl rfl⟩

/-- C4 counterexample: converting the non-string literal `3`, whose span is
`7`, to a string yields a diagnostic carrying the generic call-site span, not
the span of the offending token. -/
theorem litStr_span_counterexample :
    Core.litStr_from_meta (.lit ⟨.int 3, 7⟩) =
      .error ⟨Span.callSite, "expected str literal"⟩ ∧
    Span.callSite ≠ 7 :=
  ⟨rfl, by decide⟩

/-- C4 amended: shape-mismatch diagnostics of the Value Grammar dispatch
(`literal()`) carry the span of the offending item — the path span, the list
name span, the name-value name span — and a string literal converts carrying
its own span; but the wrong-literal-kind diagnostic of the Typed Conversion
Layer (a non-string literal converted to a string) carries the generic
call-site span instead of the span of the offending token. -/
theorem litStr_from_meta_spans :
    (∀ p : Path, Core.litStr_from_meta (.path p) =
      .error ⟨p.span, "expected a literal"⟩) ∧
    (∀ (n : Path) (psp : Span) (ch : List Core.MetaValue),
      Core.litStr_from_meta (.list n psp ch) =
        .error ⟨n.span, "expected a literal"⟩) ∧
    (∀ (n : Path) (esp : Span) (v : LitTok),
      Core.litStr_from_meta (.nameValue n esp v) =
        .error ⟨n.span, "expected a literal"⟩) ∧
    (∀ (s : String) (sp : Span),
      Core.litStr_from_meta (.lit ⟨.str s, sp⟩) = .ok ⟨s, sp⟩) ∧
    (∀ (n : Nat) (sp : Span),
      Core.litStr_from_meta (.lit ⟨.int n, sp⟩) =
        .error ⟨Span.callSite, "expected str literal"⟩) ∧
    (∀ (b : Bool) (sp : Span),
      Core.litStr_from_meta (.lit ⟨.bool b, sp⟩) =
        .error ⟨Span.callSite, "expected str literal"⟩) :=
  ⟨fun _ => rfl, fun _ _ _ => rfl, fun _ _ _ => rfl, fun _ _ => rfl,
   fun _ _ => rfl, fun _ _ => rfl⟩

/-- C6: `MetaList::get` performs first-match-by-name lookup — no matching
item gives `None`, the first item whose name matches wins regardless of
later duplicates — and a matched name-value item is converted through its
value as a standalone literal item. -/
theorem metaListGet_spec (α : Type) (fm : Core.MetaValue → Except Diag α)
    (key : String) :
    (∀ children : List Core.MetaValue,
      children.all (fun m => !(Core.nameMatches key m)) = true →
      Core.metaListGet fm children key = none) ∧
    (∀ (l1 : List Core.MetaValue) (item : Core.MetaValue)
        (l2 : List Core.MetaValue),
      l1.all (fun m => !(Core.nameMatches key m)) = true →
      Core.nameMatches key item = true →
      Core.metaListGet fm (l1 ++ item :: l2) key =
        some (fm (Core.coerceForGet item))) ∧
    (∀ (n : Path) (esp : Span) (v : LitTok),
      Core.coerceForGet (.nameValue n esp v) = .lit v) := by
  have hnone : ∀ children : List Core.MetaValue,
      children.all (fun m => !(Core.nameMatches key m)) = true →
      children.find? (Core.nameMatches key) = none := by
    intro children hall
    induction children with
    | nil => rfl
    | cons a l ih =>
      simp only [List.all_cons, Bool.and_eq_true, Bool.not_eq_true'] at hall
      rw [List.find?_cons_of_neg _ (by simp [hall.1])]
      exact ih hall.2
  have hfind : ∀ (l1 : List Core.MetaValue) (item : Core.MetaValue)
      (l2 : List Core.MetaValue),
      l1.all (fun m => !(Core.nameMatches key m)) = true →
      Core.nameMatches key item = true →
      (l1 ++ item :: l2).find? (Core.nameMatches key) = some item := by
    intro l1 item l2 hall hitem
    induction l1 with
    | nil => simpa using List.find?_cons_of_pos (l := l2) hitem
    | cons a l ih =>
      simp only [List.all_cons, Bool.and_eq_true, Bool.not_eq_true'] at hall
      rw [List.cons_append, List.find?_cons_of_neg _ (by simp [hall.1])]
      exact ih hall.2
  refine ⟨?_, ?_, fun _ _ _ => rfl⟩
  · intro children hall
    simp [Core.metaListGet, hnone children hall]
  · intro l1 item l2 hall hitem
    simp [Core.metaListGet, hfind l1 item l2 hall hitem]

/-- C6 witness: with two items named `keyword`, lookup returns the first
conversion result, treating its name-value payload as a standalone string
literal; lookup of an absent name returns `None`. -/
theorem metaListGet_spec_witness :
    Core.metaListGet Core.litStr_from_meta
      [Core.MetaValue.path ⟨["x"], 1⟩,
       Core.MetaValue.nameValue ⟨["keyword"], 2⟩ 3 ⟨.str "hi", 4⟩,
       Core.MetaValue.nameValue ⟨["keyword"], 5⟩ 6 ⟨.str "bye", 7⟩]
      "keyword" = some (.ok ⟨"hi", 4⟩) ∧
    Core.metaListGet Core.litStr_from_meta
      [Core.MetaValue.path ⟨["x"], 1⟩] "keyword" = none := by
  constructor
  · exact (metaListGet_spec Core.LitStrT Core.litStr_from_meta "keyword").2.1
      [Core.MetaValue.path ⟨["x"], 1⟩]
      (Core.MetaValue.nameValue ⟨["keyword"], 2⟩ 3 ⟨.str "hi", 4⟩)
      [Core.MetaValue.nameValue ⟨["keyword"], 5⟩ 6 ⟨.str "bye", 7⟩]
      rfl rfl
  · exact (metaListGet_spec Core.LitStrT Core.litStr_from_meta "keyword").1
      [Core.MetaValue.path ⟨["x"], 1⟩] rfl

/-- C7: a type with the from-meta capability is read as a value by first
requiring a brace-delimited group at the cursor — any other token is an
error at its span — and then invoking the stream reader on the interior of
the group; concretely the nested value `inner = { keyword = "x" }` yields the
name `inner` and then the nested record with `keyword = "x"`. -/
theorem from_meta_value_braced_spec (α : Type)
    (fm : List Tok → Except Diag (α × List Tok)) :
    (∀ (inner : List Tok) (sp : Span) (rest leftover : List Tok) (v : α),
      fm inner = .ok (v, leftover) →
      from_meta_value_of_from_meta fm (.braceGroup inner sp :: rest) =
        .ok (v, rest)) ∧
    (∀ (inner : List Tok) (sp : Span) (rest : List Tok) (e : Diag),
      fm inner = .error e →
      from_meta_value_of_from_meta fm (.braceGroup inner sp :: rest) =
        .error e) ∧
    (∀ (t : Tok) (rest : List Tok), t.isBrace = false →
      from_meta_value_of_from_meta fm (t :: rest) =
        .error ⟨t.span, "expected curly braces"⟩) ∧
    (next_name [Tok.path ⟨["inner"], 1⟩, Tok.eq 2,
        Tok.braceGroup [Tok.path ⟨["keyword"], 3⟩, Tok.eq 4,
          Tok.lit ⟨.str "x", 5⟩] 6] =
      .ok (some (Name.new ⟨["inner"], 1⟩),
        [Tok.braceGroup [Tok.path ⟨["keyword"], 3⟩, Tok.eq 4,
          Tok.lit ⟨.str "x", 5⟩] 6])) ∧
    (next_value InnerRec [Tok.braceGroup [Tok.path ⟨["keyword"], 3⟩, Tok.eq 4,
        Tok.lit ⟨.str "x", 5⟩] 6] = .ok (some ⟨"x"⟩, [])) := by
  refine ⟨?_, ?_, ?_, rfl, rfl⟩
  · intro inner sp rest leftover v hconv
    show (fm inner).map (fun vr => (vr.1, rest)) = .ok (v, rest)
    rw [hconv]
    rfl
  · intro inner sp rest e hconv
    show (fm inner).map (fun vr => (vr.1, rest)) = .error e
    rw [hconv]
    rfl
  · intro t rest ht
    cases t <;> first | rfl | simp [Tok.isBrace] at ht

/-- C7 witness: reading the nested record type as a value from a stream that
does not start with a braced group fails at the span of the found token, and
from a braced group succeeds with the interior record. -/
theorem from_meta_value_braced_witness :
    from_meta_value_of_from_meta (FromMeta.from_meta (α := InnerRec))
      [Tok.lit ⟨.str "x", 9⟩] = .error ⟨9, "expected curly braces"⟩ ∧
    from_meta_value_of_from_meta (FromMeta.from_meta (α := InnerRec))
      [Tok.braceGroup [Tok.path ⟨["keyword"], 3⟩, Tok.eq 4,
        Tok.lit ⟨.str "x", 5⟩] 6] = .ok (⟨"x"⟩, []) :=
  ⟨(from_meta_value_braced_spec InnerRec
      (FromMeta.from_meta (α := InnerRec))).2.2.1 (Tok.lit ⟨.str "x", 9⟩) [] rfl,
   (from_meta_value_braced_spec InnerRec
      (FromMeta.from_meta (α := InnerRec))).1
      [Tok.path ⟨["keyword"], 3⟩, Tok.eq 4, Tok.lit ⟨.str "x", 5⟩] 6 [] []
      ⟨"x"⟩ rfl⟩

/-- C9: the `Option<T>` tree-mode conversion is exactly the inner conversion
with its success wrapped in `Some`; whenever the inner conversion succeeds
the wrapper succeeds with `Some` of it, and the wrapper never produces
`None` — absence of a field is a presence concern of the caller, not of this
layer. -/
theorem option_from_meta_spec (α : Type) [Core.FromMeta α] :
    (∀ m : Core.MetaValue,
      Core.FromMeta.from_meta (α := Option α) m =
        (Core.FromMeta.from_meta (α := α) m).map some) ∧
    (∀ (m : Core.MetaValue) (t : α),
      Core.FromMeta.from_meta (α := α) m = .ok t →
      Core.FromMeta.from_meta (α := Option α) m = .ok (some t)) ∧
    (∀ m : Core.MetaValue,
      Core.FromMeta.from_meta (α := Option α) m ≠ .ok none) := by
  have h1 : ∀ m : Core.MetaValue,
      Core.FromMeta.from_meta (α := Option α) m =
        (Core.FromMeta.from_meta (α := α) m).map some := fun _ => rfl
  refine ⟨h1, ?_, ?_⟩
  · intro m t hm
    rw [h1, hm]
    rfl
  · intro m hm
    rw [h1] at hm
    cases hconv : Core.FromMeta.from_meta (α := α) m <;>
      rw [hconv] at hm <;> simp [Except.map] at hm

/-- C9 witness: at a concrete string literal item, the optional string
conversion wraps the inner success in `Some`. -/
theorem option_from_meta_spec_witness :
    Core.FromMeta.from_meta (α := Option Core.LitStrT)
      (.lit ⟨.str "hi", 4⟩) = .ok (some ⟨"hi", 4⟩) :=
  (option_from_meta_spec Core.LitStrT).2.1 (.lit ⟨.str "hi", 4⟩) ⟨"hi", 4⟩ rfl

end Macrotk
